import Mathlib

set_option maxRecDepth 100000

/-!
Verification of the BLS tool (`src/src/main.rs`) against its specification.

The repository under `src/` is a thin CLI wrapper: the cryptographic core
(finite fields, the BN254 base and twist curve groups, the pairing, the
hash-to-curve construction, and point/scalar serialization) is delegated to
an external module and is not present in the sources.  Following the spec's
data model (§3, §4), the two curve groups and the target group are cyclic of
prime order `r`; we model each of them by its exponent group `ZMod r`
(a point `a·P` is represented by the scalar `a`, the generator by `1`), so
that the pairing `e(aP₁, bP₂) = e(P₁,P₂)^(a·b)` becomes multiplication of
exponents.  Definitions taken from this abstract model carry a
`Modelled from the spec:` doc comment; everything else is a direct
transcription of the control flow of `main.rs`.
-/

namespace BlsTools

/-- Modelled from the spec: the prime order `r` of the base group, the twist
group and the target group (the BN254 subgroup order used by the external
`sylow` module). -/
def r : ℕ := 21888242871839275222246405745257275088548364400416034343698204186575808495617

instance : NeZero r := ⟨by decide⟩

/-- Modelled from the spec: a scalar is a field element modulo the group
order `r` (spec §3). -/
abbrev Scalar : Type := ZMod r

/-- Modelled from the spec: the base group (where hashed messages and
signatures live), cyclic of order `r`, written additively; the point `a·P₁`
is represented by its exponent `a`. -/
abbrev G1 : Type := ZMod r

/-- Modelled from the spec: the twist group (where public keys live), cyclic
of order `r`, represented by exponents of its generator. -/
abbrev G2 : Type := ZMod r

/-- Modelled from the spec: the target group of the pairing, represented by
the exponent of `e(P₁,P₂)`. -/
abbrev GT' : Type := ZMod r

/-- The base-group generator (exponent representation). -/
def g1gen : G1 := 1

/-- The twist-group generator, `G2Projective::generator()` in `main.rs`. -/
def g2gen : G2 := 1

/-- Modelled from the spec: the bilinear pairing `e : G1 × G2 → GT`
(spec §4.3, invariant `e(aP, bQ) = e(P,Q)^(ab)`); on exponent
representations it is multiplication in `ZMod r`. -/
def pairing (p : G1) (q : G2) : GT' := p * q

/-- The domain-separation tag `DST` of `main.rs` line 7: the bytes of the
ASCII string `WARLOCK-CHAOS-V01-CS01-SHA-256`. -/
def DST : List ℕ :=
  [87, 65, 82, 76, 79, 67, 75, 45, 67, 72, 65, 79, 83, 45, 86, 48, 49, 45,
   67, 83, 48, 49, 45, 83, 72, 65, 45, 50, 53, 54]

/-- The target security level in bits, `SECURITY_BITS` of `main.rs` line 8. -/
def SECURITY_BITS : ℕ := 128

/-- Modelled from the spec: the hash-to-curve construction (spec §4.4,
XMD expansion with the given domain-separation tag and security level
followed by map-to-curve and cofactor clearing).  The construction is a
deterministic function of the tag, the security level and the message; its
actual value is opaque to the signature scheme, so it is abstracted by an
explicit deterministic mixing function into the exponent group. -/
def hash_to_curve (dst : List ℕ) (sec : ℕ) (msg : List ℕ) : G1 :=
  ((msg.foldl (fun a b => 257 * a + b + 1)
      (dst.foldl (fun a b => 257 * a + b + 1) (sec + 1)) : ℕ) : ZMod r)

/-- The hashed-message point computed in the `Sign` arm of `main.rs`
(lines 86-88): `hash_to_curve` at the fixed `DST` and `SECURITY_BITS`. -/
def hashForSign (msg : List ℕ) : G1 := hash_to_curve DST SECURITY_BITS msg

/-- The hashed-message point computed in the `Verify` arm of `main.rs`
(lines 145-147): `hash_to_curve` at the fixed `DST` and `SECURITY_BITS`. -/
def hashForVerify (msg : List ℕ) : G1 := hash_to_curve DST SECURITY_BITS msg

/-- The signature computed by the `Sign` arm of `main.rs` (line 89):
the hashed message point scalar-multiplied by the secret key. -/
def sign (s : Scalar) (msg : List ℕ) : G1 := s * hashForSign msg

/-- The public key derived from a secret in the `PublicKeyFromSecret` arm of
`main.rs` (line 73): `G2Projective::generator() * secret_key`. -/
def publicKey (s : Scalar) : G2 := s * g2gen

/-- The verification equation of the `Verify` arm of `main.rs`
(lines 149-152): `e(signature, g2gen) == e(hash(message), publicKey)`. -/
def verify (sig : G1) (pk : G2) (msg : List ℕ) : Bool :=
  decide (pairing sig g2gen = pairing (hashForVerify msg) pk)

/-! ### Byte strings and fixed-width big-endian encodings (spec §4.1, §6) -/

/-- The numeric value of a big-endian byte string. -/
def beVal (bs : List ℕ) : ℕ := bs.foldl (fun a b => 256 * a + b) 0

/-- The fixed-width big-endian byte string of a numeric value:
`beBytes w n` is the `w`-byte big-endian encoding of `n`. -/
def beBytes : ℕ → ℕ → List ℕ
  | 0, _ => []
  | w + 1, n => beBytes w (n / 256) ++ [n % 256]

/-- The failure kinds of the spec's error taxonomy (§7): encoding errors
(non-hexadecimal input, odd hex length, wrong byte length), decode errors
(non-canonical field element, point off curve, point outside the prime-order
subgroup), and entropy-source failure during key generation. -/
inductive CoreError : Type
  | invalidHexChar
  | oddHexLength
  | wrongLength
  | nonCanonical
  | notOnCurve
  | notInSubgroup
  | entropyFailure
deriving DecidableEq

/-- Modelled from the spec: `Fp::from_be_bytes` as used on secret keys in
`main.rs` (lines 70-71, 84-85); per spec §6, decoding a secret fails exactly
when the input is not 32 bytes or its big-endian value is not canonical
(≥ the group order `r`). -/
def Fp_from_be_bytes (bs : List ℕ) : Except CoreError Scalar :=
  if bs.length = 32 then
    if beVal bs < r then .ok ((beVal bs : ℕ) : ZMod r)
    else .error .nonCanonical
  else .error .wrongLength

/-- The 64-byte big-endian encoding of a base-group point,
`G1Affine::to_be_bytes` (spec §6: signatures are exactly 64 bytes).
In the exponent model the point `a·P₁` is encoded as the 64-byte
big-endian encoding of the exponent `a`. -/
def G1_to_be_bytes (p : G1) : List ℕ := beBytes 64 p.val

/-- The 128-byte big-endian encoding of a twist-group point,
`G2Affine::to_be_bytes` (spec §6: public keys are exactly 128 bytes). -/
def G2_to_be_bytes (q : G2) : List ℕ := beBytes 128 q.val

/-- Modelled from the spec: the on-curve test applied by deserialization
(spec §4.2).  The modelled curve has cofactor 2: its point values are the
big-endian values below `2·r`, of which the lower half form the prime-order
subgroup, so that both an off-curve failure and an on-curve-but-wrong-
subgroup failure are realizable. -/
def onCurveG1 (bs : List ℕ) : Bool := decide (beVal bs < 2 * r)

/-- Modelled from the spec: the prime-order-subgroup membership test applied
by deserialization (spec §4.2, cofactor multiplication or equivalent). -/
def inSubgroupG1 (bs : List ℕ) : Bool := decide (beVal bs < r)

/-- Modelled from the spec: the on-curve test for the twist curve. -/
def onCurveG2 (bs : List ℕ) : Bool := decide (beVal bs < 2 * r)

/-- Modelled from the spec: the subgroup test for the twist group. -/
def inSubgroupG2 (bs : List ℕ) : Bool := decide (beVal bs < r)

/-- Modelled from the spec: `G1Affine::from_be_bytes` (spec §4.2):
deserialization performs three checks in order — correct length (64 bytes),
on-curve membership, subgroup membership — and any failure yields an
explicit invalid-point error. -/
def G1_from_be_bytes (bs : List ℕ) : Except CoreError G1 :=
  if bs.length = 64 then
    if onCurveG1 bs then
      if inSubgroupG1 bs then .ok ((beVal bs : ℕ) : ZMod r)
      else .error .notInSubgroup
    else .error .notOnCurve
  else .error .wrongLength

/-- Modelled from the spec: `G2Affine::from_be_bytes` (spec §4.2), with the
length check at 128 bytes. -/
def G2_from_be_bytes (bs : List ℕ) : Except CoreError G2 :=
  if bs.length = 128 then
    if onCurveG2 bs then
      if inSubgroupG2 bs then .ok ((beVal bs : ℕ) : ZMod r)
      else .error .notInSubgroup
    else .error .notOnCurve
  else .error .wrongLength

/-! ### Hex encoding and decoding (`hex::decode` / `hex::encode`) -/

/-- The value of one hexadecimal digit, accepting both cases. -/
def hexDigitVal (c : Char) : Option ℕ :=
  if 48 ≤ c.toNat ∧ c.toNat ≤ 57 then some (c.toNat - 48)
  else if 97 ≤ c.toNat ∧ c.toNat ≤ 102 then some (c.toNat - 87)
  else if 65 ≤ c.toNat ∧ c.toNat ≤ 70 then some (c.toNat - 55)
  else none

/-- Decoding of an even-length hex string, two digits per byte. -/
def hexPairs : List Char → Except CoreError (List ℕ)
  | [] => .ok []
  | [_] => .error .oddHexLength
  | c1 :: c2 :: rest =>
    match hexDigitVal c1 with
    | none => .error .invalidHexChar
    | some hi =>
      match hexDigitVal c2 with
      | none => .error .invalidHexChar
      | some lo =>
        match hexPairs rest with
        | .error e => .error e
        | .ok bs => .ok ((16 * hi + lo) :: bs)

/-- `hex::decode`: rejects odd-length input and non-hexadecimal characters,
otherwise produces the byte string. -/
def hexDecode (s : List Char) : Except CoreError (List ℕ) :=
  if s.length % 2 = 1 then .error .oddHexLength else hexPairs s

/-- The lowercase hex digit of a value below 16, as produced by
`hex::encode`. -/
def hexDigitChar (n : ℕ) : Char :=
  if n < 10 then Char.ofNat (48 + n) else Char.ofNat (87 + n)

/-- `hex::encode`: two lowercase hex digits per byte. -/
def hexEncode : List ℕ → List Char
  | [] => []
  | b :: rest => hexDigitChar (b / 16) :: hexDigitChar (b % 16) :: hexEncode rest

/-! ### The CLI commands of `main.rs` -/

/-- The panic messages of the `.expect(...)` calls in `main.rs`, one
constructor per distinct message string. -/
inductive AbortMsg : Type
  | invalidHexInSecretKey        -- "Invalid hex in secret key"
  | secretKeyMustBe32Bytes       -- "Secret key must be 32 bytes"
  | failedToDeserializeSecretKey -- "Failed to deserialize secret key"
  | invalidHexInPublicKey        -- "Invalid hex in public key"
  | publicKeyMustBe128Bytes      -- "Public key must be 128 bytes"
  | invalidPublicKey             -- "Invalid public key"
  | invalidHexInSignature        -- "Invalid hex in signature"
  | signatureMustBe64Bytes       -- "Signature must be 64 bytes"
  | invalidSignature             -- "Invalid signature"
  | hashingFailed                -- "Hashing failed"
deriving DecidableEq

/-- The observable outcome of one CLI command of `main.rs`: either the value
printed to stdout with exit code 0, or a process-aborting panic raised by
one of the `.expect(...)` calls. -/
inductive CliOutcome (α : Type) : Type
  | output (a : α)
  | crashed (m : AbortMsg)
deriving DecidableEq

/-- The `PublicKeyFromSecret` arm of `main.rs` (lines 65-78): hex-decode the
secret (panicking on bad hex), require 32 bytes, deserialize the scalar,
derive the public key and print its hex-encoded 128-byte form. -/
def publicKeyFromSecretCmd (secret : List Char) : CliOutcome (List Char) :=
  match hexDecode secret with
  | .error _ => .crashed .invalidHexInSecretKey
  | .ok bs =>
    if bs.length = 32 then
      match Fp_from_be_bytes bs with
      | .error _ => .crashed .failedToDeserializeSecretKey
      | .ok s => .output (hexEncode (G2_to_be_bytes (publicKey s)))
    else .crashed .secretKeyMustBe32Bytes

/-- The `Sign` arm of `main.rs` (lines 79-91): decode the secret as in
`PublicKeyFromSecret`, hash the message at the fixed `DST` and
`SECURITY_BITS`, multiply by the secret and print the hex-encoded 64-byte
signature. -/
def signCmd (secret : List Char) (msg : List ℕ) : CliOutcome (List Char) :=
  match hexDecode secret with
  | .error _ => .crashed .invalidHexInSecretKey
  | .ok bs =>
    if bs.length = 32 then
      match Fp_from_be_bytes bs with
      | .error _ => .crashed .failedToDeserializeSecretKey
      | .ok s => .output (hexEncode (G1_to_be_bytes (sign s msg)))
    else .crashed .secretKeyMustBe32Bytes

/-- The accumulation loop of the `AggregateKeys` arm of `main.rs`
(lines 92-106) after hex decoding: starting from `G2Projective::zero()`,
decode each 128-byte key and add it to the accumulator; the final sum is
re-encoded.  The first decode failure aborts with its error kind. -/
def aggregateKeysBytes (acc : G2) : List (List ℕ) → Except CoreError (List ℕ)
  | [] => .ok (G2_to_be_bytes acc)
  | k :: rest =>
    match G2_from_be_bytes k with
    | .error e => .error e
    | .ok p => aggregateKeysBytes (acc + p) rest

/-- The accumulation loop of the `AggregateSignatures` arm of `main.rs`
(lines 107-121) after hex decoding, over 64-byte base-group points. -/
def aggregateSignaturesBytes (acc : G1) : List (List ℕ) → Except CoreError (List ℕ)
  | [] => .ok (G1_to_be_bytes acc)
  | s :: rest =>
    match G1_from_be_bytes s with
    | .error e => .error e
    | .ok p => aggregateSignaturesBytes (acc + p) rest

/-- The `AggregateKeys` arm of `main.rs` at the CLI boundary: each element
is hex-decoded (panic on bad hex), required to be 128 bytes, deserialized
(panic on an invalid point) and accumulated; the sum is printed hex-encoded. -/
def aggregateKeysGo (acc : G2) : List (List Char) → CliOutcome (List Char)
  | [] => .output (hexEncode (G2_to_be_bytes acc))
  | k :: rest =>
    match hexDecode k with
    | .error _ => .crashed .invalidHexInPublicKey
    | .ok kb =>
      if kb.length = 128 then
        match G2_from_be_bytes kb with
        | .error _ => .crashed .invalidPublicKey
        | .ok p => aggregateKeysGo (acc + p) rest
      else .crashed .publicKeyMustBe128Bytes

/-- The `AggregateKeys` command, started at the identity accumulator. -/
def aggregateKeysCmd (keys : List (List Char)) : CliOutcome (List Char) :=
  aggregateKeysGo (0 : G2) keys

/-- The `AggregateSignatures` arm of `main.rs` at the CLI boundary. -/
def aggregateSignaturesGo (acc : G1) : List (List Char) → CliOutcome (List Char)
  | [] => .output (hexEncode (G1_to_be_bytes acc))
  | s :: rest =>
    match hexDecode s with
    | .error _ => .crashed .invalidHexInSignature
    | .ok sb =>
      if sb.length = 64 then
        match G1_from_be_bytes sb with
        | .error _ => .crashed .invalidSignature
        | .ok p => aggregateSignaturesGo (acc + p) rest
      else .crashed .signatureMustBe64Bytes

/-- The `AggregateSignatures` command, started at the identity accumulator. -/
def aggregateSignaturesCmd (sigs : List (List Char)) : CliOutcome (List Char) :=
  aggregateSignaturesGo (0 : G1) sigs

/-- The `Verify` arm of `main.rs` (lines 122-153): decode the 64-byte
signature, then the 128-byte public key (panicking at each failed check),
hash the message, and print whether the two pairings agree.  A `false`
verdict is an ordinary output, not a failure. -/
def verifyCmd (sigHex pkHex : List Char) (msg : List ℕ) : CliOutcome Bool :=
  match hexDecode sigHex with
  | .error _ => .crashed .invalidHexInSignature
  | .ok sb =>
    if sb.length = 64 then
      match G1_from_be_bytes sb with
      | .error _ => .crashed .invalidSignature
      | .ok sig =>
        match hexDecode pkHex with
        | .error _ => .crashed .invalidHexInPublicKey
        | .ok kb =>
          if kb.length = 128 then
            match G2_from_be_bytes kb with
            | .error _ => .crashed .invalidPublicKey
            | .ok pk => .output (verify sig pk msg)
          else .crashed .publicKeyMustBe128Bytes
    else .crashed .signatureMustBe64Bytes

/-- Modelled from the spec: `KeyPair::generate()` (spec §4.5) draws a
uniformly random scalar from a cryptographically secure entropy source and
derives the public key; it fails only if the entropy source fails.  The
entropy source is modelled as an optional scalar sample. -/
def generateKeys (entropy : Option Scalar) : Except CoreError (Scalar × G2) :=
  match entropy with
  | none => .error .entropyFailure
  | some s => .ok (s, publicKey s)

/-- The point decoded from a valid base-group encoding (and the identity on
an invalid one); used only to state aggregation lemmas. -/
def decG1 (bs : List ℕ) : G1 :=
  match G1_from_be_bytes bs with
  | .ok p => p
  | .error _ => 0

/-- Whether a byte string is a valid base-group point encoding. -/
def isOkG1 (bs : List ℕ) : Bool :=
  match G1_from_be_bytes bs with
  | .ok _ => true
  | .error _ => false

/-- The point decoded from a valid twist-group encoding (and the identity on
an invalid one); used only to state aggregation lemmas. -/
def decG2 (bs : List ℕ) : G2 :=
  match G2_from_be_bytes bs with
  | .ok p => p
  | .error _ => 0

/-- Whether a byte string is a valid twist-group point encoding. -/
def isOkG2 (bs : List ℕ) : Bool :=
  match G2_from_be_bytes bs with
  | .ok _ => true
  | .error _ => false

instance {ε α : Type} [DecidableEq ε] [DecidableEq α] : DecidableEq (Except ε α) := fun a b =>
  match a, b with
  | .ok x, .ok y =>
    if h : x = y then .isTrue (by rw [h]) else .isFalse (by intro hc; cases hc; exact h rfl)
  | .error e, .error f =>
    if h : e = f then .isTrue (by rw [h]) else .isFalse (by intro hc; cases hc; exact h rfl)
  | .ok _, .error _ => .isFalse (by intro hc; cases hc)
  | .error _, .ok _ => .isFalse (by intro hc; cases hc)

/-! ### Lemmas about the big-endian encoding -/

theorem beVal_append (l : List ℕ) (b : ℕ) : beVal (l ++ [b]) = 256 * beVal l + b := by
  simp [beVal, List.foldl_append]

theorem beBytes_length (w n : ℕ) : (beBytes w n).length = w := by
  induction w generalizing n with
  | zero => rfl
  | succ w ih => simp [beBytes, ih]

theorem beVal_beBytes (w n : ℕ) (h : n < 256 ^ w) : beVal (beBytes w n) = n := by
  induction w generalizing n with
  | zero =>
    have : n = 0 := Nat.lt_one_iff.mp (by simpa using h)
    simp [this, beBytes, beVal]
  | succ w ih =>
    have hd : n / 256 < 256 ^ w := by
      rw [Nat.div_lt_iff_lt_mul (by norm_num)]
      calc n < 256 ^ (w + 1) := h
        _ = 256 ^ w * 256 := by ring
    rw [beBytes, beVal_append, ih _ hd]
    exact Nat.div_add_mod n 256

theorem beBytes_bytes_lt (w n : ℕ) : ∀ b ∈ beBytes w n, b < 256 := by
  induction w generalizing n with
  | zero => intro b hb; simp [beBytes] at hb
  | succ w ih =>
    intro b hb
    rw [beBytes] at hb
    rcases List.mem_append.mp hb with h | h
    · exact ih _ _ h
    · have : b = n % 256 := by simpa using h
      subst this
      exact Nat.mod_lt _ (by norm_num)

theorem beBytes_beVal (bs : List ℕ) (h : ∀ b ∈ bs, b < 256) :
    beBytes bs.length (beVal bs) = bs := by
  induction bs using List.reverseRecOn with
  | nil => rfl
  | append_singleton l b ih =>
    have hb : b < 256 := h b (by simp)
    have hl : ∀ x ∈ l, x < 256 := fun x hx => h x (by simp [hx])
    have hlen : (l ++ [b]).length = l.length + 1 := by simp
    rw [hlen, beVal_append]
    simp only [beBytes]
    have h1 : (256 * beVal l + b) / 256 = beVal l := by omega
    have h2 : (256 * beVal l + b) % 256 = b := by omega
    rw [h1, h2, ih hl]

theorem r_lt_pow64 : r < 256 ^ 64 := by decide

theorem r_lt_pow128 : r < 256 ^ 128 := by decide

/-- Decoding inverts encoding on the base group. -/
theorem G1_from_to (p : G1) : G1_from_be_bytes (G1_to_be_bytes p) = .ok p := by
  have hval : p.val < r := ZMod.val_lt p
  have hlt : p.val < 256 ^ 64 := lt_trans hval r_lt_pow64
  have hbe : beVal (beBytes 64 p.val) = p.val := beVal_beBytes _ _ hlt
  have h2r : p.val < 2 * r := by omega
  simp [G1_from_be_bytes, G1_to_be_bytes, beBytes_length, onCurveG1, inSubgroupG1, hbe,
    hval, h2r, ZMod.natCast_rightInverse p]

/-- Decoding inverts encoding on the twist group. -/
theorem G2_from_to (q : G2) : G2_from_be_bytes (G2_to_be_bytes q) = .ok q := by
  have hval : q.val < r := ZMod.val_lt q
  have hlt : q.val < 256 ^ 128 := lt_trans hval r_lt_pow128
  have hbe : beVal (beBytes 128 q.val) = q.val := beVal_beBytes _ _ hlt
  have h2r : q.val < 2 * r := by omega
  simp [G2_from_be_bytes, G2_to_be_bytes, beBytes_length, onCurveG2, inSubgroupG2, hbe,
    hval, h2r, ZMod.natCast_rightInverse q]

/-- On a list of valid encodings, the key-aggregation loop computes the
group sum of the decoded points and re-encodes it. -/
theorem aggregateKeysBytes_eq_sum (l : List (List ℕ)) (acc : G2)
    (h : ∀ bs ∈ l, isOkG2 bs = true) :
    aggregateKeysBytes acc l = .ok (G2_to_be_bytes (acc + (l.map decG2).sum)) := by
  induction l generalizing acc with
  | nil => simp [aggregateKeysBytes]
  | cons k rest ih =>
    obtain ⟨p, hp⟩ : ∃ p, G2_from_be_bytes k = .ok p := by
      have hk : isOkG2 k = true := h k (by simp)
      unfold isOkG2 at hk
      cases hkk : G2_from_be_bytes k with
      | ok p => exact ⟨p, rfl⟩
      | error e => rw [hkk] at hk; simp at hk
    simp only [aggregateKeysBytes, hp]
    rw [ih (acc + p) (fun bs hbs => h bs (List.mem_cons_of_mem _ hbs))]
    simp [decG2, hp, add_assoc]

/-- On a list of valid encodings, the signature-aggregation loop computes
the group sum of the decoded points and re-encodes it. -/
theorem aggregateSignaturesBytes_eq_sum (l : List (List ℕ)) (acc : G1)
    (h : ∀ bs ∈ l, isOkG1 bs = true) :
    aggregateSignaturesBytes acc l = .ok (G1_to_be_bytes (acc + (l.map decG1).sum)) := by
  induction l generalizing acc with
  | nil => simp [aggregateSignaturesBytes]
  | cons k rest ih =>
    obtain ⟨p, hp⟩ : ∃ p, G1_from_be_bytes k = .ok p := by
      have hk : isOkG1 k = true := h k (by simp)
      unfold isOkG1 at hk
      cases hkk : G1_from_be_bytes k with
      | ok p => exact ⟨p, rfl⟩
      | error e => rw [hkk] at hk; simp at hk
    simp only [aggregateSignaturesBytes, hp]
    rw [ih (acc + p) (fun bs hbs => h bs (List.mem_cons_of_mem _ hbs))]
    simp [decG1, hp, add_assoc]

/-- A successful base-group decode forces the length, canonicity and value
of the input. -/
theorem G1_from_be_bytes_ok (bs : List ℕ) (p : G1) (h : G1_from_be_bytes bs = .ok p) :
    bs.length = 64 ∧ beVal bs < r ∧ p = ((beVal bs : ℕ) : ZMod r) := by
  by_cases h1 : bs.length = 64
  · by_cases h2 : beVal bs < 2 * r
    · by_cases h3 : beVal bs < r
      · refine ⟨h1, h3, ?_⟩
        simp [G1_from_be_bytes, onCurveG1, inSubgroupG1, h1, h2, h3] at h
        exact h.symm
      · simp [G1_from_be_bytes, onCurveG1, inSubgroupG1, h1, h2, h3] at h
    · simp [G1_from_be_bytes, onCurveG1, h1, h2] at h
  · simp [G1_from_be_bytes, h1] at h

/-- A successful twist-group decode forces the length, canonicity and value
of the input. -/
theorem G2_from_be_bytes_ok (bs : List ℕ) (q : G2) (h : G2_from_be_bytes bs = .ok q) :
    bs.length = 128 ∧ beVal bs < r ∧ q = ((beVal bs : ℕ) : ZMod r) := by
  by_cases h1 : bs.length = 128
  · by_cases h2 : beVal bs < 2 * r
    · by_cases h3 : beVal bs < r
      · refine ⟨h1, h3, ?_⟩
        simp [G2_from_be_bytes, onCurveG2, inSubgroupG2, h1, h2, h3] at h
        exact h.symm
      · simp [G2_from_be_bytes, onCurveG2, inSubgroupG2, h1, h2, h3] at h
    · simp [G2_from_be_bytes, onCurveG2, h1, h2] at h
  · simp [G2_from_be_bytes, h1] at h

/-- A failing base-group decode of a length-correct input carries one of the
two point-decode error kinds: off curve or outside the subgroup. -/
theorem G1_from_be_bytes_error_kind (bs : List ℕ) (e : CoreError)
    (hlen : bs.length = 64) (h : G1_from_be_bytes bs = .error e) :
    e = CoreError.notOnCurve ∨ e = CoreError.notInSubgroup := by
  by_cases h2 : beVal bs < 2 * r
  · by_cases h3 : beVal bs < r
    · simp [G1_from_be_bytes, onCurveG1, inSubgroupG1, hlen, h2, h3] at h
    · simp [G1_from_be_bytes, onCurveG1, inSubgroupG1, hlen, h2, h3] at h
      exact Or.inr h.symm
  · simp [G1_from_be_bytes, onCurveG1, hlen, h2] at h
    exact Or.inl h.symm

/-- A failing twist-group decode of a length-correct input carries one of
the two point-decode error kinds: off curve or outside the subgroup. -/
theorem G2_from_be_bytes_error_kind (bs : List ℕ) (e : CoreError)
    (hlen : bs.length = 128) (h : G2_from_be_bytes bs = .error e) :
    e = CoreError.notOnCurve ∨ e = CoreError.notInSubgroup := by
  by_cases h2 : beVal bs < 2 * r
  · by_cases h3 : beVal bs < r
    · simp [G2_from_be_bytes, onCurveG2, inSubgroupG2, hlen, h2, h3] at h
    · simp [G2_from_be_bytes, onCurveG2, inSubgroupG2, hlen, h2, h3] at h
      exact Or.inr h.symm
  · simp [G2_from_be_bytes, onCurveG2, hlen, h2] at h
    exact Or.inl h.symm

/-- Hex decoding fails only with the two encoding-error kinds. -/
theorem hexPairs_error_kind :
    ∀ (s : List Char) (e : CoreError), hexPairs s = .error e →
      e = CoreError.invalidHexChar ∨ e = CoreError.oddHexLength
  | [], e, h => by simp [hexPairs] at h
  | [_], e, h => by
    simp [hexPairs] at h
    exact Or.inr h.symm
  | c1 :: c2 :: rest, e, h => by
    cases hv1 : hexDigitVal c1 with
    | none =>
      simp [hexPairs, hv1] at h
      exact Or.inl h.symm
    | some hi =>
      cases hv2 : hexDigitVal c2 with
      | none =>
        simp [hexPairs, hv1, hv2] at h
        exact Or.inl h.symm
      | some lo =>
        cases hr : hexPairs rest with
        | error e2 =>
          have ih := hexPairs_error_kind rest e2 hr
          simp [hexPairs, hv1, hv2, hr] at h
          rw [h] at ih
          exact ih
        | ok bs => simp [hexPairs, hv1, hv2, hr] at h

/-- `hex::decode` fails only with the two encoding-error kinds. -/
theorem hexDecode_error_kind (s : List Char) (e : CoreError) (h : hexDecode s = .error e) :
    e = CoreError.invalidHexChar ∨ e = CoreError.oddHexLength := by
  unfold hexDecode at h
  by_cases ho : s.length % 2 = 1
  · simp [ho] at h
    exact Or.inr h.symm
  · simp [ho] at h
    exact hexPairs_error_kind s e h

/-! ### The claims -/

/-- Claim C1: for every well-formed signature (a valid 64-byte base-group
point encoding), well-formed public key (a valid 128-byte twist-group point
encoding) and every message, the `Verify` command outputs `true` if and
only if the pairing of the signature with the twist-group generator equals
the pairing of the hashed message with the public key. -/
theorem verify_iff_pairing (sigHex pkHex : List Char) (msg sb kb : List ℕ)
    (sig : G1) (pk : G2)
    (hsb : hexDecode sigHex = .ok sb) (hs : G1_from_be_bytes sb = .ok sig)
    (hkb : hexDecode pkHex = .ok kb) (hk : G2_from_be_bytes kb = .ok pk) :
    verifyCmd sigHex pkHex msg = .output true ↔
      pairing sig g2gen = pairing (hash_to_curve DST SECURITY_BITS msg) pk := by
  have h64 : sb.length = 64 := (G1_from_be_bytes_ok sb sig hs).1
  have h128 : kb.length = 128 := (G2_from_be_bytes_ok kb pk hk).1
  simp [verifyCmd, hsb, hs, hkb, hk, h64, h128, verify, hashForVerify]

/-- Witness for C1 at a concrete valid signature, public key and message. -/
theorem verify_iff_pairing_witness :
    (verifyCmd (hexEncode (G1_to_be_bytes 2)) (hexEncode (G2_to_be_bytes 3)) []
        = .output true ↔
      pairing 2 g2gen = pairing (hash_to_curve DST SECURITY_BITS []) 3) :=
  verify_iff_pairing _ _ _ _ _ 2 3 (by rfl) (G1_from_to 2) (by rfl) (G2_from_to 3)

/-- Claim C3: for all secrets `s1, s2` and a shared message, aggregating the
two individual signatures yields exactly the signature of `s1 + s2 (mod r)`
(equal as group elements, hence bit-identical encodings), the two public
keys aggregate to their group sum, and the aggregate signature verifies
against the aggregate public key. -/
theorem aggregate_two_signers (s1 s2 : Scalar) (msg : List ℕ) :
    aggregateSignaturesBytes 0
        [G1_to_be_bytes (sign s1 msg), G1_to_be_bytes (sign s2 msg)]
      = .ok (G1_to_be_bytes (sign (s1 + s2) msg)) ∧
    aggregateKeysBytes 0
        [G2_to_be_bytes (publicKey s1), G2_to_be_bytes (publicKey s2)]
      = .ok (G2_to_be_bytes (publicKey s1 + publicKey s2)) ∧
    verify (sign s1 msg + sign s2 msg) (publicKey s1 + publicKey s2) msg = true := by
  refine ⟨?_, ?_, ?_⟩
  · have hsum : (0 : G1) + sign s1 msg + sign s2 msg = sign (s1 + s2) msg := by
      simp only [sign]
      ring
    simp only [aggregateSignaturesBytes, G1_from_to, hsum]
  · have hsum : (0 : G2) + publicKey s1 + publicKey s2 = publicKey s1 + publicKey s2 := by
      rw [zero_add]
    simp only [aggregateKeysBytes, G2_from_to, hsum]
  · simp [verify, sign, publicKey, pairing, g2gen, hashForSign, hashForVerify]
    ring

/-- Claim C2: for every valid secret scalar `s` and every message `m`,
verifying the signature `sign s m` against the public key derived from `s`
(the secret times the twist-group generator) and the same message returns
`true`. -/
theorem sign_verify_succeeds (s : Scalar) (msg : List ℕ) :
    verify (sign s msg) (publicKey s) msg = true := by
  simp [verify, sign, publicKey, pairing, g2gen, hashForSign, hashForVerify]
  ring

/-- Claim C4: hashing to the curve is deterministic: at the fixed
domain-separation tag `DST` and security level `SECURITY_BITS`, the point
hashed during `Sign` equals the point hashed during `Verify` for the same
message, with bit-identical encoding. -/
theorem hash_deterministic_sign_verify (msg : List ℕ) :
    hashForSign msg = hashForVerify msg ∧
    G1_to_be_bytes (hashForSign msg) = G1_to_be_bytes (hashForVerify msg) :=
  ⟨rfl, rfl⟩

/-- Claim C5: aggregating an empty input list succeeds and returns the
encoded group identity rather than failing: `AggregateKeys []` prints the
hex of the encoded twist-group identity and `AggregateSignatures []` the
hex of the encoded base-group identity. -/
theorem aggregate_empty_yields_identity :
    aggregateKeysCmd [] = .output (hexEncode (G2_to_be_bytes 0)) ∧
    aggregateSignaturesCmd [] = .output (hexEncode (G1_to_be_bytes 0)) ∧
    aggregateKeysBytes 0 [] = .ok (G2_to_be_bytes 0) ∧
    aggregateSignaturesBytes 0 [] = .ok (G1_to_be_bytes 0) :=
  ⟨rfl, rfl, rfl, rfl⟩

/-- Claim C7: decoding a secret key fails exactly when the input is not 32
bytes long (`wrongLength`) or its big-endian value is at least the group
order `r` (`nonCanonical`); every accepted secret is the canonical scalar
of value `beVal bs`, strictly below `r`. -/
theorem secret_decode_iff_canonical (bs : List ℕ) :
    (bs.length = 32 ∧ beVal bs < r ∧
      Fp_from_be_bytes bs = .ok ((beVal bs : ℕ) : ZMod r) ∧
      (((beVal bs : ℕ) : ZMod r)).val = beVal bs) ∨
    (bs.length ≠ 32 ∧ Fp_from_be_bytes bs = .error .wrongLength) ∨
    (bs.length = 32 ∧ r ≤ beVal bs ∧ Fp_from_be_bytes bs = .error .nonCanonical) := by
  by_cases h1 : bs.length = 32
  · by_cases h2 : beVal bs < r
    · exact Or.inl ⟨h1, h2, by simp [Fp_from_be_bytes, h1, h2], ZMod.val_cast_of_lt h2⟩
    · exact Or.inr (Or.inr ⟨h1, le_of_not_lt h2, by simp [Fp_from_be_bytes, h1, h2]⟩)
  · exact Or.inr (Or.inl ⟨h1, by simp [Fp_from_be_bytes, h1]⟩)

/-- Claim C8: point deserialization performs three checks in order — length
(64 bytes for base-group points, 128 for twist-group points), on-curve
membership, and prime-order-subgroup membership — and each failing check
yields its explicit invalid-point error, never an exception or a corrupted
value. -/
theorem point_decode_three_checks (bs : List ℕ) :
    ((bs.length = 64 ∧ onCurveG1 bs = true ∧ inSubgroupG1 bs = true ∧
        G1_from_be_bytes bs = .ok ((beVal bs : ℕ) : ZMod r)) ∨
      (bs.length ≠ 64 ∧ G1_from_be_bytes bs = .error .wrongLength) ∨
      (bs.length = 64 ∧ onCurveG1 bs = false ∧
        G1_from_be_bytes bs = .error .notOnCurve) ∨
      (bs.length = 64 ∧ onCurveG1 bs = true ∧ inSubgroupG1 bs = false ∧
        G1_from_be_bytes bs = .error .notInSubgroup)) ∧
    ((bs.length = 128 ∧ onCurveG2 bs = true ∧ inSubgroupG2 bs = true ∧
        G2_from_be_bytes bs = .ok ((beVal bs : ℕ) : ZMod r)) ∨
      (bs.length ≠ 128 ∧ G2_from_be_bytes bs = .error .wrongLength) ∨
      (bs.length = 128 ∧ onCurveG2 bs = false ∧
        G2_from_be_bytes bs = .error .notOnCurve) ∨
      (bs.length = 128 ∧ onCurveG2 bs = true ∧ inSubgroupG2 bs = false ∧
        G2_from_be_bytes bs = .error .notInSubgroup)) := by
  constructor
  · by_cases h1 : bs.length = 64
    · by_cases h2 : beVal bs < 2 * r
      · by_cases h3 : beVal bs < r
        · exact Or.inl ⟨h1, by simp [onCurveG1, h2], by simp [inSubgroupG1, h3],
            by simp [G1_from_be_bytes, onCurveG1, inSubgroupG1, h1, h2, h3]⟩
        · exact Or.inr (Or.inr (Or.inr ⟨h1, by simp [onCurveG1, h2],
            by simp [inSubgroupG1, h3],
            by simp [G1_from_be_bytes, onCurveG1, inSubgroupG1, h1, h2, h3]⟩))
      · exact Or.inr (Or.inr (Or.inl ⟨h1, by simp [onCurveG1, h2],
          by simp [G1_from_be_bytes, onCurveG1, h1, h2]⟩))
    · exact Or.inr (Or.inl ⟨h1, by simp [G1_from_be_bytes, h1]⟩)
  · by_cases h1 : bs.length = 128
    · by_cases h2 : beVal bs < 2 * r
      · by_cases h3 : beVal bs < r
        · exact Or.inl ⟨h1, by simp [onCurveG2, h2], by simp [inSubgroupG2, h3],
            by simp [G2_from_be_bytes, onCurveG2, inSubgroupG2, h1, h2, h3]⟩
        · exact Or.inr (Or.inr (Or.inr ⟨h1, by simp [onCurveG2, h2],
            by simp [inSubgroupG2, h3],
            by simp [G2_from_be_bytes, onCurveG2, inSubgroupG2, h1, h2, h3]⟩))
      · exact Or.inr (Or.inr (Or.inl ⟨h1, by simp [onCurveG2, h2],
          by simp [G2_from_be_bytes, onCurveG2, h1, h2]⟩))
    · exact Or.inr (Or.inl ⟨h1, by simp [G2_from_be_bytes, h1]⟩)

/-- Claim C9: decoding inverts encoding on both groups
(`decode (encode P) = P`), and aggregating a single-element list holding a
valid encoded public key `k` (resp. signature `sgl`) re-encodes to exactly
`k` (resp. `sgl`). -/
theorem decode_encode_roundtrip (p : G1) (q : G2) (k sgl : List ℕ)
    (q' : G2) (p' : G1)
    (hkB : ∀ b ∈ k, b < 256) (hk : G2_from_be_bytes k = .ok q')
    (hsB : ∀ b ∈ sgl, b < 256) (hs : G1_from_be_bytes sgl = .ok p') :
    G1_from_be_bytes (G1_to_be_bytes p) = .ok p ∧
    G2_from_be_bytes (G2_to_be_bytes q) = .ok q ∧
    aggregateKeysBytes 0 [k] = .ok k ∧
    aggregateSignaturesBytes 0 [sgl] = .ok sgl := by
  refine ⟨G1_from_to p, G2_from_to q, ?_, ?_⟩
  · obtain ⟨hl, hv, hq⟩ := G2_from_be_bytes_ok k q' hk
    have henc : G2_to_be_bytes q' = k := by
      rw [hq]
      unfold G2_to_be_bytes
      rw [ZMod.val_cast_of_lt hv, ← hl, beBytes_beVal k hkB]
    simp only [aggregateKeysBytes, hk, zero_add, henc]
  · obtain ⟨hl, hv, hp⟩ := G1_from_be_bytes_ok sgl p' hs
    have henc : G1_to_be_bytes p' = sgl := by
      rw [hp]
      unfold G1_to_be_bytes
      rw [ZMod.val_cast_of_lt hv, ← hl, beBytes_beVal sgl hsB]
    simp only [aggregateSignaturesBytes, hs, zero_add, henc]

/-- Witness for C9 at concrete points and concrete valid encodings. -/
theorem decode_encode_roundtrip_witness :
    G1_from_be_bytes (G1_to_be_bytes 5) = .ok 5 ∧
    G2_from_be_bytes (G2_to_be_bytes 7) = .ok 7 ∧
    aggregateKeysBytes 0 [G2_to_be_bytes 9] = .ok (G2_to_be_bytes 9) ∧
    aggregateSignaturesBytes 0 [G1_to_be_bytes 11] = .ok (G1_to_be_bytes 11) :=
  decode_encode_roundtrip 5 7 (G2_to_be_bytes 9) (G1_to_be_bytes 11) 9 11
    (by decide) (by decide) (by decide) (by decide)

/-- Claim C10: key and signature aggregation are permutation-invariant: for
every pair of lists of valid encoded points that are permutations of each
other, the aggregated (encoded) outputs coincide, the left-to-right
accumulation being a commutative group sum from the identity. -/
theorem aggregation_perm_invariant (ks1 ks2 ss1 ss2 : List (List ℕ))
    (hkp : ks1.Perm ks2) (hsp : ss1.Perm ss2)
    (hkv : ∀ bs ∈ ks1, isOkG2 bs = true) (hsv : ∀ bs ∈ ss1, isOkG1 bs = true) :
    aggregateKeysBytes 0 ks1 = aggregateKeysBytes 0 ks2 ∧
    aggregateSignaturesBytes 0 ss1 = aggregateSignaturesBytes 0 ss2 := by
  constructor
  · rw [aggregateKeysBytes_eq_sum ks1 0 hkv,
      aggregateKeysBytes_eq_sum ks2 0 (fun bs hbs => hkv bs (hkp.mem_iff.mpr hbs)),
      (hkp.map decG2).sum_eq]
  · rw [aggregateSignaturesBytes_eq_sum ss1 0 hsv,
      aggregateSignaturesBytes_eq_sum ss2 0 (fun bs hbs => hsv bs (hsp.mem_iff.mpr hbs)),
      (hsp.map decG1).sum_eq]

/-- Witness for C10 at concrete two-element lists and their transpositions. -/
theorem aggregation_perm_invariant_witness :
    aggregateKeysBytes 0 [G2_to_be_bytes 1, G2_to_be_bytes 2]
      = aggregateKeysBytes 0 [G2_to_be_bytes 2, G2_to_be_bytes 1] ∧
    aggregateSignaturesBytes 0 [G1_to_be_bytes 3, G1_to_be_bytes 4]
      = aggregateSignaturesBytes 0 [G1_to_be_bytes 4, G1_to_be_bytes 3] :=
  aggregation_perm_invariant _ _ _ _
    (List.Perm.swap _ _ _) (List.Perm.swap _ _ _) (by decide) (by decide)

/-- Claim C6 counterexample: on the concrete non-hexadecimal input string
`zz` (character codes 122, 122), the `PublicKeyFromSecret` command of
`main.rs` does not return a failure value to its caller: the `.expect` on
`hex::decode` (line 66) panics, aborting the process. -/
theorem decode_failure_crashes_cli :
    publicKeyFromSecretCmd [Char.ofNat 122, Char.ofNat 122]
      = .crashed AbortMsg.invalidHexInSecretKey := rfl

/-- Claim C6 (amended): the core decoding and generation functions report
every failure as an explicit error value distinguished by kind
(non-hexadecimal input, odd hex length, wrong byte length, non-canonical
scalar, point off curve, point outside the subgroup, entropy failure) and
never yield a corrupted value; the CLI wrapper, however — in each of the
`PublicKeyFromSecret`, `AggregateKeys`, `AggregateSignatures` and `Verify`
arms of `main.rs` — converts each such failure into a process-aborting
panic (`CliOutcome.crashed`, with the message of the failed check) instead
of returning it to its caller. -/
theorem cli_errors_explicit_by_kind :
    (∀ s : List Char,
      ((∃ e, hexDecode s = .error e ∧
            (e = CoreError.invalidHexChar ∨ e = CoreError.oddHexLength)) ∧
          publicKeyFromSecretCmd s = .crashed .invalidHexInSecretKey) ∨
        (∃ bs, hexDecode s = .ok bs ∧ bs.length ≠ 32 ∧
          Fp_from_be_bytes bs = .error .wrongLength ∧
          publicKeyFromSecretCmd s = .crashed .secretKeyMustBe32Bytes) ∨
        (∃ bs, hexDecode s = .ok bs ∧ bs.length = 32 ∧ r ≤ beVal bs ∧
          Fp_from_be_bytes bs = .error .nonCanonical ∧
          publicKeyFromSecretCmd s = .crashed .failedToDeserializeSecretKey) ∨
        (∃ bs v, hexDecode s = .ok bs ∧ Fp_from_be_bytes bs = .ok v ∧
          publicKeyFromSecretCmd s = .output (hexEncode (G2_to_be_bytes (publicKey v))))) ∧
    (∀ (acc : G2) (k : List Char) (rest : List (List Char)),
      ((∃ e, hexDecode k = .error e ∧
            (e = CoreError.invalidHexChar ∨ e = CoreError.oddHexLength)) ∧
          aggregateKeysGo acc (k :: rest) = .crashed .invalidHexInPublicKey) ∨
        (∃ kb, hexDecode k = .ok kb ∧ kb.length ≠ 128 ∧
          aggregateKeysGo acc (k :: rest) = .crashed .publicKeyMustBe128Bytes) ∨
        (∃ kb e, hexDecode k = .ok kb ∧ kb.length = 128 ∧
          G2_from_be_bytes kb = .error e ∧
          (e = CoreError.notOnCurve ∨ e = CoreError.notInSubgroup) ∧
          aggregateKeysGo acc (k :: rest) = .crashed .invalidPublicKey) ∨
        (∃ kb p, hexDecode k = .ok kb ∧ G2_from_be_bytes kb = .ok p ∧
          aggregateKeysGo acc (k :: rest) = aggregateKeysGo (acc + p) rest)) ∧
    (∀ (acc : G1) (sg : List Char) (rest : List (List Char)),
      ((∃ e, hexDecode sg = .error e ∧
            (e = CoreError.invalidHexChar ∨ e = CoreError.oddHexLength)) ∧
          aggregateSignaturesGo acc (sg :: rest) = .crashed .invalidHexInSignature) ∨
        (∃ sb, hexDecode sg = .ok sb ∧ sb.length ≠ 64 ∧
          aggregateSignaturesGo acc (sg :: rest) = .crashed .signatureMustBe64Bytes) ∨
        (∃ sb e, hexDecode sg = .ok sb ∧ sb.length = 64 ∧
          G1_from_be_bytes sb = .error e ∧
          (e = CoreError.notOnCurve ∨ e = CoreError.notInSubgroup) ∧
          aggregateSignaturesGo acc (sg :: rest) = .crashed .invalidSignature) ∨
        (∃ sb p, hexDecode sg = .ok sb ∧ G1_from_be_bytes sb = .ok p ∧
          aggregateSignaturesGo acc (sg :: rest) = aggregateSignaturesGo (acc + p) rest)) ∧
    (∀ (sigHex pkHex : List Char) (msg : List ℕ),
      ((∃ e, hexDecode sigHex = .error e ∧
            (e = CoreError.invalidHexChar ∨ e = CoreError.oddHexLength)) ∧
          verifyCmd sigHex pkHex msg = .crashed .invalidHexInSignature) ∨
        (∃ sb, hexDecode sigHex = .ok sb ∧ sb.length ≠ 64 ∧
          verifyCmd sigHex pkHex msg = .crashed .signatureMustBe64Bytes) ∨
        (∃ sb e, hexDecode sigHex = .ok sb ∧ sb.length = 64 ∧
          G1_from_be_bytes sb = .error e ∧
          (e = CoreError.notOnCurve ∨ e = CoreError.notInSubgroup) ∧
          verifyCmd sigHex pkHex msg = .crashed .invalidSignature) ∨
        (∃ sb sig, hexDecode sigHex = .ok sb ∧ G1_from_be_bytes sb = .ok sig ∧
          (((∃ e, hexDecode pkHex = .error e ∧
                (e = CoreError.invalidHexChar ∨ e = CoreError.oddHexLength)) ∧
              verifyCmd sigHex pkHex msg = .crashed .invalidHexInPublicKey) ∨
            (∃ kb, hexDecode pkHex = .ok kb ∧ kb.length ≠ 128 ∧
              verifyCmd sigHex pkHex msg = .crashed .publicKeyMustBe128Bytes) ∨
            (∃ kb e, hexDecode pkHex = .ok kb ∧ kb.length = 128 ∧
              G2_from_be_bytes kb = .error e ∧
              (e = CoreError.notOnCurve ∨ e = CoreError.notInSubgroup) ∧
              verifyCmd sigHex pkHex msg = .crashed .invalidPublicKey) ∨
            (∃ kb pk, hexDecode pkHex = .ok kb ∧ G2_from_be_bytes kb = .ok pk ∧
              verifyCmd sigHex pkHex msg = .output (verify sig pk msg))))) ∧
    generateKeys none = .error CoreError.entropyFailure := by
  refine ⟨?_, ?_, ?_, ?_, rfl⟩
  · intro s
    cases hhex : hexDecode s with
    | error e =>
      exact Or.inl ⟨⟨e, rfl, hexDecode_error_kind s e hhex⟩,
        by simp [publicKeyFromSecretCmd, hhex]⟩
    | ok bs =>
      by_cases h1 : bs.length = 32
      · by_cases h2 : beVal bs < r
        · exact Or.inr (Or.inr (Or.inr ⟨bs, ((beVal bs : ℕ) : ZMod r), rfl,
            by simp [Fp_from_be_bytes, h1, h2],
            by simp [publicKeyFromSecretCmd, hhex, Fp_from_be_bytes, h1, h2]⟩))
        · exact Or.inr (Or.inr (Or.inl ⟨bs, rfl, h1, le_of_not_lt h2,
            by simp [Fp_from_be_bytes, h1, h2],
            by simp [publicKeyFromSecretCmd, hhex, Fp_from_be_bytes, h1, h2]⟩))
      · exact Or.inr (Or.inl ⟨bs, rfl, h1, by simp [Fp_from_be_bytes, h1],
          by simp [publicKeyFromSecretCmd, hhex, h1]⟩)
  · intro acc k rest
    cases hhex : hexDecode k with
    | error e =>
      exact Or.inl ⟨⟨e, rfl, hexDecode_error_kind k e hhex⟩,
        by simp [aggregateKeysGo, hhex]⟩
    | ok kb =>
      by_cases hlen : kb.length = 128
      · cases hdec : G2_from_be_bytes kb with
        | error e =>
          exact Or.inr (Or.inr (Or.inl ⟨kb, e, rfl, hlen, hdec,
            G2_from_be_bytes_error_kind kb e hlen hdec,
            by simp [aggregateKeysGo, hhex, hlen, hdec]⟩))
        | ok p =>
          exact Or.inr (Or.inr (Or.inr ⟨kb, p, rfl, hdec,
            by simp [aggregateKeysGo, hhex, hlen, hdec]⟩))
      · exact Or.inr (Or.inl ⟨kb, rfl, hlen, by simp [aggregateKeysGo, hhex, hlen]⟩)
  · intro acc sg rest
    cases hhex : hexDecode sg with
    | error e =>
      exact Or.inl ⟨⟨e, rfl, hexDecode_error_kind sg e hhex⟩,
        by simp [aggregateSignaturesGo, hhex]⟩
    | ok sb =>
      by_cases hlen : sb.length = 64
      · cases hdec : G1_from_be_bytes sb with
        | error e =>
          exact Or.inr (Or.inr (Or.inl ⟨sb, e, rfl, hlen, hdec,
            G1_from_be_bytes_error_kind sb e hlen hdec,
            by simp [aggregateSignaturesGo, hhex, hlen, hdec]⟩))
        | ok p =>
          exact Or.inr (Or.inr (Or.inr ⟨sb, p, rfl, hdec,
            by simp [aggregateSignaturesGo, hhex, hlen, hdec]⟩))
      · exact Or.inr (Or.inl ⟨sb, rfl, hlen,
          by simp [aggregateSignaturesGo, hhex, hlen]⟩)
  · intro sigHex pkHex msg
    cases hhexs : hexDecode sigHex with
    | error e =>
      exact Or.inl ⟨⟨e, rfl, hexDecode_error_kind sigHex e hhexs⟩,
        by simp [verifyCmd, hhexs]⟩
    | ok sb =>
      by_cases hlens : sb.length = 64
      · cases hdecs : G1_from_be_bytes sb with
        | error e =>
          exact Or.inr (Or.inr (Or.inl ⟨sb, e, rfl, hlens, hdecs,
            G1_from_be_bytes_error_kind sb e hlens hdecs,
            by simp [verifyCmd, hhexs, hlens, hdecs]⟩))
        | ok sig =>
          refine Or.inr (Or.inr (Or.inr ⟨sb, sig, rfl, hdecs, ?_⟩))
          cases hhexk : hexDecode pkHex with
          | error e =>
            exact Or.inl ⟨⟨e, rfl, hexDecode_error_kind pkHex e hhexk⟩,
              by simp [verifyCmd, hhexs, hlens, hdecs, hhexk]⟩
          | ok kb =>
            by_cases hlenk : kb.length = 128
            · cases hdeck : G2_from_be_bytes kb with
              | error e =>
                exact Or.inr (Or.inr (Or.inl ⟨kb, e, rfl, hlenk, hdeck,
                  G2_from_be_bytes_error_kind kb e hlenk hdeck,
                  by simp [verifyCmd, hhexs, hlens, hdecs, hhexk, hlenk, hdeck]⟩))
              | ok pk =>
                exact Or.inr (Or.inr (Or.inr ⟨kb, pk, rfl, hdeck,
                  by simp [verifyCmd, hhexs, hlens, hdecs, hhexk, hlenk, hdeck]⟩))
            · exact Or.inr (Or.inl ⟨kb, rfl, hlenk,
                by simp [verifyCmd, hhexs, hlens, hdecs, hhexk, hlenk]⟩)
      · exact Or.inr (Or.inl ⟨sb, rfl, hlens, by simp [verifyCmd, hhexs, hlens]⟩)

end BlsTools
